import Mathlib

/-!
Verification of the array query provider (`src/lib/array-query-provider.ts`)
of the jinqu repository, a LINQ-style in-memory query executor.

The source is translated into a shallow embedding:

* JS arrays become `List`, generators become the eager list of the items
  they would yield (no operator mutates a sequence between its creation
  and its consumption, so eager and lazy evaluation agree; the one place
  where the number of upstream pulls matters, `take`, gets a dedicated
  instrumented model `takeStream`).
* JS `null`/`undefined` become `Option.none` where they can occur.
* Thrown `Error`s become `Except JinquError`, with the error taxonomy of
  the specification mapped onto the message strings of the source.
* The `deep-equal` npm dependency (an external module, not part of this
  repository) is modelled by the `BEq` instance of the key type; for the
  integer keys used in all concrete instances this is plain value
  equality, which is what deep equality means on numbers.
* `Array.prototype.sort` with a comparator is modelled as a stable
  insertion sort (`jsSort`): for a consistent comparator the ECMAScript
  specification prescribes a stable sort, which determines the output
  uniquely.
-/

/-- Error taxonomy of the specification, mapped from the message strings
thrown by the source:
`Cannot query null array` = `invalidSource`,
`Unknown query part type ...` = `unknownOperator`,
`Sequence contains no element` = `emptySequence`,
`Sequence contains no matching element` = `noMatch`,
`Sequence contains more than one matching element` = `multipleMatches`,
`Index was outside the bounds of the array` = `indexOutOfRange`. -/
inductive JinquError where
  | invalidSource
  | unknownOperator
  | invalidCast
  | emptySequence
  | noMatch
  | multipleMatches
  | indexOutOfRange
deriving DecidableEq, Repr

/-- Operator kinds (`QueryFunc` in the source; the module defining it is
not under `src/`, so the set is taken from the names used by
`array-query-provider.ts`: the keys of the `funcs` dispatch table plus the
four ordering kinds referenced by `thenFuncs`/`descFuncs`). -/
inductive PartKind where
  | whereK | ofTypeK | castK | selectK | selectManyK | joinWithK | groupJoinK
  | takeK | takeWhileK | skipK | skipWhileK | groupByK | distinctK
  | concatWithK | zipK | unionK | intersectK | exceptK | defaultIfEmptyK
  | reverseK
  | firstK | firstOrDefaultK | lastK | lastOrDefaultK
  | singleK | singleOrDefaultK | elementAtK | elementAtOrDefaultK
  | containsK | sequenceEqualK | anyK | allK | countK
  | minK | maxK | sumK | averageK | aggregateK
  | orderByK | orderByDescendingK | thenByK | thenByDescendingK
deriving DecidableEq, Repr

/-- JS `list.indexOf(x)`: the index of the first occurrence, `-1` when the
element is absent. -/
def jsIndexOf [BEq κ] (l : List κ) (x : κ) : Int :=
  match l.findIdx? (fun y => y == x) with
  | some i => (i : Int)
  | none => -1

/-- JS truthiness of a number: every number other than `0` is truthy
(`NaN` does not arise here). -/
def numTruthy (n : Int) : Bool := n != 0

/-- JS bitwise not `~n`. -/
def jsBitNot (n : Int) : Int := -(n + 1)

/-- `const thenFuncs = [QueryFunc.thenBy, QueryFunc.thenByDescending]`. -/
def thenFuncs : List PartKind := [.thenByK, .thenByDescendingK]

/-- `const descFuncs = [QueryFunc.orderByDescending, QueryFunc.thenByDescending]`. -/
def descFuncs : List PartKind := [.orderByDescendingK, .thenByDescendingK]

/-- A query part: operator kind plus its arguments (`IQueryPart` in the
source). The source is untyped; here the element type is a parameter, key
selectors map to `Int` keys, and each modelled operator is one
constructor carrying its typed arguments. Operators whose running value
is not a sequence (the terminal operators) are modelled standalone below
and do not occur in pipelines. -/
inductive QueryPart (α : Type) where
  | whereP (predicate : α → Bool)
  | selectP (selector : α → α)
  | takeP (count : Int)
  | takeWhileP (predicate : α → Bool)
  | skipP (count : Int)
  | skipWhileP (predicate : α → Bool)
  | groupByP (keySelector : α → Int) (valueSelector : Int × List α → α)
  | distinctP (comparer : Option (α → α → Bool))
  | concatWithP (other : List α)
  | unionP (other : List α)
  | intersectP (other : List α)
  | exceptP (other : List α)
  | defaultIfEmptyP
  | orderByP (keySelector : α → Int)
  | orderByDescendingP (keySelector : α → Int)
  | thenByP (keySelector : α → Int)
  | thenByDescendingP (keySelector : α → Int)

/-- The `type` field of a query part. -/
def QueryPart.kind : QueryPart α → PartKind
  | .whereP _ => .whereK
  | .selectP _ => .selectK
  | .takeP _ => .takeK
  | .takeWhileP _ => .takeWhileK
  | .skipP _ => .skipK
  | .skipWhileP _ => .skipWhileK
  | .groupByP _ _ => .groupByK
  | .distinctP _ => .distinctK
  | .concatWithP _ => .concatWithK
  | .unionP _ => .unionK
  | .intersectP _ => .intersectK
  | .exceptP _ => .exceptK
  | .defaultIfEmptyP => .defaultIfEmptyK
  | .orderByP _ => .orderByK
  | .orderByDescendingP _ => .orderByDescendingK
  | .thenByP _ => .thenByK
  | .thenByDescendingP _ => .thenByDescendingK

/-- `s.args[0]` read as a key selector (`sel.func`). Only the four
ordering constructors carry a key selector; the executor only ever puts
ordering parts into the buffer handed to the sort, so the default branch
is never reached from `execute`. -/
def QueryPart.keySelector : QueryPart α → (α → Int)
  | .orderByP s => s
  | .orderByDescendingP s => s
  | .thenByP s => s
  | .thenByDescendingP s => s
  | _ => fun _ => 0

/-- `function* where(items, predicate)`: yield the items satisfying the
predicate. -/
def whereOp (items : List α) (predicate : α → Bool) : List α :=
  items.filter predicate

/-- `function* select(items, selector)`: yield `selector(i)` for each item. -/
def selectOp (items : List α) (selector : α → β) : List β :=
  items.map selector

/-- Loop of `function* take(items, count)`: pull an item, increment `i`,
yield while `++i <= count`, break otherwise. -/
def takeOpAux (count : Int) : Int → List α → List α
  | _, [] => []
  | i, a :: rest =>
    if i + 1 ≤ count then a :: takeOpAux count (i + 1) rest else []

/-- `function* take(items, count)` over a finite upstream. -/
def takeOp (items : List α) (count : Int) : List α :=
  takeOpAux count 0 items

/-- `function* takeWhile(items, predicate)`: yield while the predicate
holds, break at the first failure. -/
def takeWhileOp (items : List α) (predicate : α → Bool) : List α :=
  items.takeWhile predicate

/-- Loop of `function* skip(items, count)`: yield the items whose running
index satisfies `++i > count`. -/
def skipOpAux (count : Int) : Int → List α → List α
  | _, [] => []
  | i, a :: rest =>
    if i + 1 > count then a :: skipOpAux count (i + 1) rest
    else skipOpAux count (i + 1) rest

/-- `function* skip(items, count)`. -/
def skipOp (items : List α) (count : Int) : List α :=
  skipOpAux count 0 items

/-- `function* skipWhile(items, predicate)`: the source breaks out of the
loop at the first item satisfying the predicate and yields the items seen
before it. -/
def skipWhileOp (items : List α) (predicate : α → Bool) : List α :=
  match items with
  | [] => []
  | i :: rest => if predicate i then [] else i :: skipWhileOp rest predicate

/-- The comparison `distinct` applies to a pair: the caller-supplied
comparer when present, JS loose equality `==` otherwise (modelled by
`BEq` on the element type). -/
def distinctTest [BEq α] (comparer : Option (α → α → Bool)) (i1 i2 : α) : Bool :=
  match comparer with
  | some f => f i1 i2
  | none => i1 == i2

/-- Inner loop of `function* distinct(items, comparer)`: starting at
index `j`, scan forward for the first item comparing equal to `i1`;
the loop leaves `j` at the match, or at `items.length` when none. -/
def distinctScan [BEq α] (comparer : Option (α → α → Bool)) (items : List α)
    (i1 : α) (j : Nat) : Nat :=
  match (items.drop j).findIdx? (fun i2 => distinctTest comparer i1 i2) with
  | some k => j + k
  | none => items.length

/-- `function* distinct(items, comparer)`: for each index `i`, run the
inner scan starting at `j = i` and yield `items[i]` only when the scan
reaches `items.length`. -/
def distinctOp [BEq α] (items : List α) (comparer : Option (α → α → Bool)) : List α :=
  (List.range items.length).filterMap fun i =>
    match items[i]? with
    | some i1 =>
      if distinctScan comparer items i1 i = items.length then some i1 else none
    | none => none

/-- Loop of `function* groupBy`: for each item compute its key, look for
an existing group with a deep-equal key (`groups.find`); when none is
found push a new group holding the key and an empty item list, otherwise
push the item into the found group. -/
def groupByLoop [BEq κ] (keySelector : α → κ) :
    List α → List (κ × List α) → List (κ × List α)
  | [], groups => groups
  | i :: rest, groups =>
    let k := keySelector i
    match groups.findIdx? (fun g => g.1 == k) with
    | none => groupByLoop keySelector rest (groups ++ [(k, [])])
    | some idx =>
      match groups[idx]? with
      | some g => groupByLoop keySelector rest (groups.set idx (g.1, g.2 ++ [i]))
      | none => groupByLoop keySelector rest groups

/-- `function* groupBy(items, keySelector, valueSelector)`: build the
groups, then yield `valueSelector(g)` for each group in order. -/
def groupByOp [BEq κ] (items : List α) (keySelector : α → κ)
    (valueSelector : κ × List α → β) : List β :=
  (groupByLoop keySelector items []).map valueSelector

/-- `function* concatWith(items, other)`: yield the items, then the other
sequence. -/
def concatOp (items other : List α) : List α :=
  items ++ other

/-- One pass of `union`: yield each item not yet in the set `s`, adding
it to the set; returns the yielded items and the final set. JS `Set`
membership (SameValueZero) is modelled by `BEq`. -/
def unionLoop [BEq α] (s : List α) : List α → List α × List α
  | [] => ([], s)
  | i :: rest =>
    if s.contains i then unionLoop s rest
    else
      let r := unionLoop (s ++ [i]) rest
      (i :: r.1, r.2)

/-- `function* union(items, other)`: the dedup pass over the items, then
over the other sequence, sharing one seen-set. -/
def unionOp [BEq α] (items other : List α) : List α :=
  let r1 := unionLoop [] items
  let r2 := unionLoop r1.2 other
  r1.1 ++ r2.1

/-- Loop of `function* intersect(items, other)`: yield items present in
the other set and not yet yielded. -/
def intersectLoop [BEq α] (os : List α) (s : List α) : List α → List α
  | [] => []
  | i :: rest =>
    if os.contains i && !(s.contains i) then i :: intersectLoop os (s ++ [i]) rest
    else intersectLoop os s rest

/-- `function* intersect(items, other)`. -/
def intersectOp [BEq α] (items other : List α) : List α :=
  intersectLoop other [] items

/-- Loop of `function* except(items, other)`: yield items absent from the
other set and not yet yielded. -/
def exceptLoop [BEq α] (os : List α) (s : List α) : List α → List α
  | [] => []
  | i :: rest =>
    if !(os.contains i) && !(s.contains i) then i :: exceptLoop os (s ++ [i]) rest
    else exceptLoop os s rest

/-- `function* except(items, other)`. -/
def exceptOp [BEq α] (items other : List α) : List α :=
  exceptLoop other [] items

/-- Stable insertion of `a` into an already sorted list under the JS
comparator `cmp`: `a` goes before the first element `b` with
`cmp a b <= 0`. Together with `jsSort` this realizes the unique output of
a stable sort with a consistent comparator, which is what
`Array.prototype.sort` produces. -/
def jsInsert (cmp : α → α → Int) (a : α) : List α → List α
  | [] => [a]
  | b :: l => if cmp a b ≤ 0 then a :: b :: l else b :: jsInsert cmp a l

/-- Stable sort with a JS comparator, modelling
`Array.prototype.sort(cmp)`. -/
def jsSort (cmp : α → α → Int) : List α → List α
  | [] => []
  | a :: l => jsInsert cmp a (jsSort cmp l)

/-- `const desc = descFuncs.indexOf(s.type) ? -1 : 1;` — the direction
flag, exactly as the source computes it: the raw `indexOf` result is used
as a truthiness test. -/
def descFlag (k : PartKind) : Int :=
  if numTruthy (jsIndexOf descFuncs k) then -1 else 1

/-- The fused comparator of `orderBy(items, keySelectors)`: walk the key
selectors in fusion order; compare the two keys; on `>` return the
direction flag, on `<` its negation, on equality fall through to the next
selector; when every selector ties the comparator body falls off the end
(JS `undefined`, which `SortCompare` treats as `0`). -/
def cmpParts (keySelectors : List (QueryPart α)) (i1 i2 : α) : Int :=
  match keySelectors with
  | [] => 0
  | s :: rest =>
    let desc := descFlag s.kind
    let sel := s.keySelector
    let v1 := sel i1
    let v2 := sel i2
    if v1 > v2 then desc
    else if v1 < v2 then (-1) * desc
    else cmpParts rest i1 i2

/-- `function orderBy(items, keySelectors)`:
`items.slice().sort(comparator)` — a stable sort of a copy of the input
under the fused multi-key comparator. -/
def orderByFused (items : List α) (keySelectors : List (QueryPart α)) : List α :=
  jsSort (cmpParts keySelectors) items

/-- `defaultIfEmpty(items)`: `items || []`. Inside a pipeline the running
value is always a non-null sequence object (arrays and generator objects
are truthy even when empty), so this is the identity. -/
def defaultIfEmptyOp (items : List α) : List α :=
  items

/-- `handlePart(items, part)`: look the implementation up in the `funcs`
table and apply it. The table has entries exactly for the non-ordering
operators; the four ordering kinds have no entry, so dispatching one of
them throws `Unknown query part type ...`. -/
def handlePart [BEq α] (items : List α) (p : QueryPart α) :
    Except JinquError (List α) :=
  match p with
  | .whereP predicate => .ok (whereOp items predicate)
  | .selectP selector => .ok (selectOp items selector)
  | .takeP count => .ok (takeOp items count)
  | .takeWhileP predicate => .ok (takeWhileOp items predicate)
  | .skipP count => .ok (skipOp items count)
  | .skipWhileP predicate => .ok (skipWhileOp items predicate)
  | .groupByP keySelector valueSelector => .ok (groupByOp items keySelector valueSelector)
  | .distinctP comparer => .ok (distinctOp items comparer)
  | .concatWithP other => .ok (concatOp items other)
  | .unionP other => .ok (unionOp items other)
  | .intersectP other => .ok (intersectOp items other)
  | .exceptP other => .ok (exceptOp items other)
  | .defaultIfEmptyP => .ok (defaultIfEmptyOp items)
  | .orderByP _ => .error .unknownOperator
  | .orderByDescendingP _ => .error .unknownOperator
  | .thenByP _ => .error .unknownOperator
  | .thenByDescendingP _ => .error .unknownOperator

/-- The part loop of `execute`: a part whose kind satisfies
`~thenFuncs.indexOf(p.type)` is pushed onto the pending `orderParts`
buffer; any other part first flushes a non-empty buffer by sorting the
ORIGINAL `items` argument (not the running value), then dispatches
through `handlePart`. After the loop the function returns the running
value; a pending buffer left at the end of the list is dropped. -/
def executeLoop [BEq α] (items : List α) (value : List α)
    (orderParts : List (QueryPart α)) : List (QueryPart α) → Except JinquError (List α)
  | [] => .ok value
  | p :: ps =>
    if numTruthy (jsBitNot (jsIndexOf thenFuncs p.kind)) then
      executeLoop items value (orderParts ++ [p]) ps
    else
      let flushed := if orderParts.isEmpty then value else orderByFused items orderParts
      match handlePart flushed p with
      | .error e => .error e
      | .ok v => executeLoop items v [] ps

/-- `export function execute(items, parts)`: a null or empty parts list
returns the items unchanged (before the null check on the source); a
non-empty parts list first runs `check(items)`, which throws
`Cannot query null array` on a null source, then the part loop starting
from `value = items`. -/
def execute [BEq α] (items : Option (List α)) (parts : Option (List (QueryPart α))) :
    Except JinquError (Option (List α)) :=
  match parts with
  | none => .ok items
  | some ps =>
    if ps.isEmpty then .ok items
    else
      match items with
      | none => .error .invalidSource
      | some its => (executeLoop its its [] ps).map some

/-- A query-part argument (`IPartArgument` in the source, instantiated at
a sequence payload): exactly one of `func` (a callable producing the
sequence) and `literal` (the sequence value) is populated. -/
structure IPartArg (β : Type) where
  func : Option (Unit → List β)
  literal : Option (List β)

/-- `getArray(arg)`: `arg.func ? arg.func() : arg.literal` (arguments
reaching this helper always carry one of the two, so an absent literal is
not modelled further). -/
def getArray (arg : IPartArg β) : List β :=
  match arg.func with
  | some f => f ()
  | none => arg.literal.getD []

/-- Numeric property access `other[i]` on the part-argument RECORD. The
record has only the fields `func` and `literal`, no numeric properties,
so the read is `undefined` for every index. -/
def IPartArg.numProp (_ : IPartArg β) (_ : Nat) : Option β :=
  none

/-- `function* zip(items, other, selector)`: extract the other array via
`getArray`, set `l = min(items.length, os.length)`, then for each
`i < l` yield `selector.func(items[i], other[i])` — the second read
indexes the part-argument record `other`, not the extracted array `os`.
Both element reads are modelled as JS property reads returning an
optional value (`none` = `undefined`); the first is always defined
because `i < items.length`. -/
def zipOp (items : List α) (other : IPartArg β)
    (selector : Option α → Option β → γ) : List γ :=
  let os := getArray other
  let l := min items.length os.length
  (List.range l).map fun i => selector items[i]? (other.numProp i)

/-- `function elementAt(items, index)`: throw `IndexOutOfRange` when
`index > items.length` (strictly greater), otherwise return
`items[index]` — an out-of-range read yields `undefined` (`none`).
Indices are modelled as the non-negative integers the claims quantify
over. -/
def elementAt (items : List α) (index : Nat) : Except JinquError (Option α) :=
  if (index : Int) > (items.length : Int) then .error .indexOutOfRange
  else .ok items[index]?

/-- `function elementAtOrDefault(items, index)`: the raw read
`items[index]`, with no bound check. -/
def elementAtOrDefault (items : List α) (index : Nat) : Option α :=
  items[index]?

/-- `function getFirst(items, predicate)`: scan forward, returning
`[true, i]` at the first item accepted by the predicate (or at the first
item when no predicate is supplied), `[false, null]` when the scan falls
through. -/
def getFirst (items : List α) (predicate : Option (α → Bool)) : Bool × Option α :=
  match items with
  | [] => (false, none)
  | i :: rest =>
    if (match predicate with | none => true | some p => p i) then (true, some i)
    else getFirst rest predicate

/-- `function first(items, predicate)`: throw `EmptySequence` on an empty
source, `NoMatch` when the scan found nothing, else return the item. -/
def first (items : List α) (predicate : Option (α → Bool)) :
    Except JinquError (Option α) :=
  if items.length = 0 then .error .emptySequence
  else
    let fi := getFirst items predicate
    if !fi.1 then .error .noMatch else .ok fi.2

/-- `function firstOrDefault(items, predicate)`: the item slot of the
scan result, `null` when nothing matched. -/
def firstOrDefault (items : List α) (predicate : Option (α → Bool)) : Option α :=
  (getFirst items predicate).2

/-- Loop of `function getSingle(items, predicate)`: skip items rejected
by the predicate; throw `MultipleMatches` as soon as a second match is
seen; afterwards return `[true, matches[0]]` when a match was collected,
`[false, null]` otherwise. -/
def getSingleLoop (predicate : Option (α → Bool)) (matchList : List α) :
    List α → Except JinquError (Bool × Option α)
  | [] =>
    .ok (if matchList.length ≠ 0 then (true, matchList[0]?) else (false, none))
  | item :: rest =>
    if (match predicate with | some p => !(p item) | none => false) then
      getSingleLoop predicate matchList rest
    else if matchList.length > 0 then .error .multipleMatches
    else getSingleLoop predicate (matchList ++ [item]) rest

/-- `function getSingle(items, predicate)`. -/
def getSingle (items : List α) (predicate : Option (α → Bool)) :
    Except JinquError (Bool × Option α) :=
  getSingleLoop predicate [] items

/-- `function single(items, predicate)`: throw `EmptySequence` on an
empty source; propagate `MultipleMatches` from the scan; throw `NoMatch`
when the scan found nothing; else return the unique match. -/
def single (items : List α) (predicate : Option (α → Bool)) :
    Except JinquError (Option α) :=
  if items.length = 0 then .error .emptySequence
  else
    match getSingle items predicate with
    | .error e => .error e
    | .ok r => if !r.1 then .error .noMatch else .ok r.2

/-- `function singleOrDefault(items, predicate)`: the item slot of the
scan result; the scan itself may still throw `MultipleMatches`. -/
def singleOrDefault (items : List α) (predicate : Option (α → Bool)) :
    Except JinquError (Option α) :=
  match getSingle items predicate with
  | .error e => .error e
  | .ok r => .ok r.2

/-- Loop of `function* take(items, count)` run against an UNBOUNDED
upstream producer `f` (the producer of item `i` is `f i`), instrumented
with the number of items pulled from upstream: each iteration pulls one
item, increments the counter, and either yields and continues
(`++i <= count`) or breaks. Returns the yielded items and the pull
count. -/
def takeStreamAux (f : Nat → α) (count : Int) (i : Nat) : List α × Nat :=
  if (i : Int) + 1 ≤ count then
    let r := takeStreamAux f count (i + 1)
    (f i :: r.1, r.2 + 1)
  else ([], 1)
termination_by (count - i).toNat
decreasing_by
  simp_wf
  omega

/-- `take` over an unbounded upstream producer, with its pull count. Its
totality (it is a plain Lean function) is the termination property of the
claim. -/
def takeStream (f : Nat → α) (count : Int) : List α × Nat :=
  takeStreamAux f count 0

/-- A store of array objects, for making the mutation performed by
`Array.prototype.sort` (the only write to an existing object anywhere in
the provider) explicit: references are indices into the store. -/
structure Heap (α : Type) where
  arrays : List (List α)

/-- Read the array object behind a reference. -/
def readArr (h : Heap α) (r : Nat) : List α :=
  (h.arrays[r]?).getD []

/-- Allocate a fresh array object, returning the new store and the fresh
reference. -/
def allocArr (h : Heap α) (l : List α) : Heap α × Nat :=
  (⟨h.arrays ++ [l]⟩, h.arrays.length)

/-- Overwrite the array object behind a reference (in-place mutation). -/
def writeArr (h : Heap α) (r : Nat) (l : List α) : Heap α :=
  ⟨h.arrays.set r l⟩

/-- The running value of the executor: either an array object living in
the store (the source array, or a sorted copy produced by a flush) or
the item sequence of a generator object (generators are not arrays and
are never written to). -/
inductive RunVal (α : Type) where
  | ref (r : Nat)
  | seq (l : List α)

/-- The item sequence a running value denotes. -/
def readVal (h : Heap α) : RunVal α → List α
  | .ref r => readArr h r
  | .seq l => l

/-- `orderBy(items, keySelectors)` against the store:
`items.slice()` allocates a fresh copy of the array behind `itemsRef`,
then `.sort(...)` mutates that fresh copy in place; the receiver of the
sort is the copy, never the source. -/
def orderByHeap (h : Heap α) (itemsRef : Nat) (keySelectors : List (QueryPart α)) :
    Heap α × RunVal α :=
  let copy := readArr h itemsRef
  let ar := allocArr h copy
  let h2 := writeArr ar.1 ar.2 (jsSort (cmpParts keySelectors) copy)
  (h2, .ref ar.2)

/-- `handlePart` against the store: every table operator only READS its
input sequence and returns a generator object; `defaultIfEmpty` returns
its (non-null) input object itself. No operator writes to the store. -/
def handlePartHeap [BEq α] (h : Heap α) (value : RunVal α) (p : QueryPart α) :
    Except JinquError (RunVal α) :=
  match p with
  | .whereP predicate => .ok (.seq (whereOp (readVal h value) predicate))
  | .selectP selector => .ok (.seq (selectOp (readVal h value) selector))
  | .takeP count => .ok (.seq (takeOp (readVal h value) count))
  | .takeWhileP predicate => .ok (.seq (takeWhileOp (readVal h value) predicate))
  | .skipP count => .ok (.seq (skipOp (readVal h value) count))
  | .skipWhileP predicate => .ok (.seq (skipWhileOp (readVal h value) predicate))
  | .groupByP keySelector valueSelector =>
    .ok (.seq (groupByOp (readVal h value) keySelector valueSelector))
  | .distinctP comparer => .ok (.seq (distinctOp (readVal h value) comparer))
  | .concatWithP other => .ok (.seq (concatOp (readVal h value) other))
  | .unionP other => .ok (.seq (unionOp (readVal h value) other))
  | .intersectP other => .ok (.seq (intersectOp (readVal h value) other))
  | .exceptP other => .ok (.seq (exceptOp (readVal h value) other))
  | .defaultIfEmptyP => .ok value
  | .orderByP _ => .error .unknownOperator
  | .orderByDescendingP _ => .error .unknownOperator
  | .thenByP _ => .error .unknownOperator
  | .thenByDescendingP _ => .error .unknownOperator

/-- The flush step of the part loop against the store: with a non-empty
pending buffer the running value becomes the sorted fresh copy produced
by `orderBy(items, orderParts)` (note: of the ORIGINAL source array
behind `itemsRef`), otherwise store and value are untouched. -/
def flushPending [BEq α] (h : Heap α) (itemsRef : Nat) (value : RunVal α)
    (orderParts : List (QueryPart α)) : Heap α × RunVal α :=
  if orderParts.isEmpty then (h, value) else orderByHeap h itemsRef orderParts

/-- The part loop of `execute` against the store, returning the final
store alongside the outcome. -/
def executeLoopHeap [BEq α] (h : Heap α) (itemsRef : Nat) (value : RunVal α)
    (orderParts : List (QueryPart α)) :
    List (QueryPart α) → Heap α × Except JinquError (RunVal α)
  | [] => (h, .ok value)
  | p :: ps =>
    if numTruthy (jsBitNot (jsIndexOf thenFuncs p.kind)) then
      executeLoopHeap h itemsRef value (orderParts ++ [p]) ps
    else
      match flushPending h itemsRef value orderParts with
      | (h2, value2) =>
        match handlePartHeap h2 value2 p with
        | .error e => (h2, .error e)
        | .ok v => executeLoopHeap h2 itemsRef v [] ps

/-- `execute(items, parts)` against the store (the source array is the
object behind `itemsRef`; the empty/null-parts identity case returns the
source object itself). -/
def executeHeap [BEq α] (h : Heap α) (itemsRef : Nat)
    (parts : Option (List (QueryPart α))) : Heap α × Except JinquError (RunVal α) :=
  match parts with
  | none => (h, .ok (.ref itemsRef))
  | some ps =>
    if ps.isEmpty then (h, .ok (.ref itemsRef))
    else executeLoopHeap h itemsRef (.ref itemsRef) [] ps

/-- CLAIM C1 (code_bug evidence). The claim states that the executor
buffers all four ordering kinds and flushes a pending buffer at the end
of the parts list, so that a single `orderBy(k)` part sorts the sequence
and a pipeline ending in an ordering part returns the sorted sequence.
The code does neither: `orderBy` is not buffered (only `thenBy` and
`thenByDescending` are in `thenFuncs`) and has no entry in the `funcs`
dispatch table, so `execute([3,1,2], [orderBy(x => x)])` throws
`Unknown query part type orderBy`; and a pending buffer left at the end
of the list is silently dropped, so `execute([3,1,2], [thenBy(x => x)])`
returns the source unsorted. -/
theorem c1_execute_orderBy_unknown_and_final_flush_missing :
    execute (some ([3, 1, 2] : List Int)) (some [QueryPart.orderByP id]) =
      .error .unknownOperator ∧
    execute (some ([3, 1, 2] : List Int)) (some [QueryPart.thenByP id]) =
      .ok (some [3, 1, 2]) := by
  constructor <;> rfl

/-- CLAIM C2 (code_bug evidence). The claim states that in the fused sort
an ascending selector (`orderBy`, `thenBy`) puts the smaller key first
and a descending selector the larger key first. The comparator computes
`const desc = descFuncs.indexOf(s.type) ? -1 : 1`, which is truthy for
the not-found index `-1`, so the direction is inverted for every kind
except `orderByDescending` (whose index `0` is falsy): a single ascending
`orderBy` key sorts `[1, 2]` to `[2, 1]`, `orderByDescending` sorts to
`[1, 2]`, `thenBy` to `[2, 1]`; only `thenByDescending` (index `1`,
truthy) descends as claimed. -/
theorem c2_orderBy_direction_inverted :
    orderByFused ([1, 2] : List Int) [QueryPart.orderByP id] = [2, 1] ∧
    orderByFused ([1, 2] : List Int) [QueryPart.orderByDescendingP id] = [1, 2] ∧
    orderByFused ([1, 2] : List Int) [QueryPart.thenByP id] = [2, 1] ∧
    orderByFused ([1, 2] : List Int) [QueryPart.thenByDescendingP id] = [2, 1] := by
  refine ⟨?_, ?_, ?_, ?_⟩ <;> rfl

/-- CLAIM C3 (code_bug evidence). The claim states that each group
carries exactly the source items whose key equals the group key, so
`groupBy([1,2,1,3], x => x % 2)` produces members `[1,1,3]` and `[2]`
under keys `[1, 0]`. In the code the item that creates a new group is
never pushed into it (`group['key'] = k; groups.push(group)` without
`group.push(i)`), so every group is missing the first occurrence of its
key: the groups are `[1,3]` and `[]`. The first-seen key order `[1, 0]`
does hold. -/
theorem c3_groupBy_drops_first_occurrence :
    groupByOp ([1, 2, 1, 3] : List Int) (fun x => x % 2) id =
      [((1 : Int), [1, 3]), (0, [])] := by
  rfl

/-- CLAIM C4 (code_bug evidence). The claim states that `distinct` yields
the items with no equal earlier item, so a duplicate-free sequence is
returned unchanged. The inner scan starts at `j = i`, comparing
`items[i]` against itself first; loose equality is reflexive, so the scan
always stops immediately and no item is ever yielded:
`distinct([1,2,3])` returns `[]` instead of `[1,2,3]`. -/
theorem c4_distinct_always_empty :
    distinctOp ([1, 2, 3] : List Int) none = [] := by
  rfl

/-- CLAIM C5 (code_bug evidence). The claim states that the i-th item of
`zip(A, B, f)` is `f(A[i], B[i])`. The body yields
`selector.func(items[i], other[i])` where `other` is the part-argument
RECORD, not the extracted array `os`, so the second argument is always
`undefined`: `zip([1], [10], (a, b) => [a, b])` yields `[[1, undefined]]`
(the claimed output-length bound `min(|A|, |B|)` itself does hold, since
the loop bound is computed from `os`). -/
theorem c5_zip_second_argument_undefined :
    zipOp ([1] : List Int) ⟨none, some [10]⟩ (fun a b => (a, b)) =
      [(some 1, (none : Option Int))] := by
  rfl

/-- CLAIM C6 (counterexample). The claim states that an index equal to
the length is rejected before any access. The bound check is
`index.literal > items.length` — strict — so `elementAt([1,2,3], 3)`
passes the check and returns the out-of-range read `undefined` rather
than failing with `IndexOutOfRange`. -/
theorem c6_elementAt_at_length_not_rejected :
    elementAt ([1, 2, 3] : List Int) 3 = .ok none ∧
    elementAt ([1, 2, 3] : List Int) 3 ≠ .error .indexOutOfRange := by
  have hv : elementAt ([1, 2, 3] : List Int) 3 = .ok none := rfl
  refine ⟨hv, ?_⟩
  intro h
  rw [hv] at h
  exact Except.noConfusion h

/-- CLAIM C6 (amended). `elementAt(S, i)` fails with `IndexOutOfRange`
exactly when `i` strictly exceeds the length of `S`; an index equal to
the length passes the check and yields the out-of-range (`undefined`)
read; every valid index `0 ≤ i ≤ length - 1` returns the i-th element
(`elementAt([1,2,3], 5)` fails; `elementAt([1,2,3], 0)` returns `1`);
`elementAtOrDefault(S, i)` performs no bound check and returns the raw
(possibly `undefined`) read for any `i`. -/
theorem c6_elementAt_bounds (α : Type) (items : List α) (i : Nat) :
    (elementAt items i = .error .indexOutOfRange ↔ items.length < i) ∧
    (i ≤ items.length → elementAt items i = .ok items[i]?) ∧
    (∀ h : i < items.length, elementAt items i = .ok (some (items.get ⟨i, h⟩))) ∧
    elementAtOrDefault items i = items[i]? := by
  unfold elementAt elementAtOrDefault
  refine ⟨?_, ?_, ?_, rfl⟩
  · constructor
    · intro h
      by_contra hlt
      rw [if_neg (by omega)] at h
      exact absurd h (by simp)
    · intro h
      rw [if_pos (by omega)]
  · intro h
    rw [if_neg (by omega)]
  · intro h
    rw [if_neg (by omega)]
    simp [List.getElem?_eq_getElem h]

/-- CLAIM C6 (witness). The amended bound behavior evaluated on the
concrete examples of the specification. -/
theorem c6_elementAt_bounds_witness :
    elementAt ([1, 2, 3] : List Int) 0 = .ok (some 1) ∧
    elementAt ([1, 2, 3] : List Int) 5 = .error .indexOutOfRange := by
  constructor
  · have h := (c6_elementAt_bounds Int [1, 2, 3] 0).2.2.1 (by decide)
    simpa using h
  · exact (c6_elementAt_bounds Int [1, 2, 3] 5).1.mpr (by decide)

/-- The forward scan of `getFirst` only reports `found = false` together
with a `null` item slot. -/
theorem getFirst_false_snd (items : List α) (predicate : Option (α → Bool)) :
    (getFirst items predicate).1 = false → (getFirst items predicate).2 = none := by
  induction items with
  | nil => intro _; rfl
  | cons i rest ih =>
    simp only [getFirst]
    split
    · intro h; exact absurd h (by simp)
    · exact ih

/-- The scan of `getSingle` can only throw `MultipleMatches`. -/
theorem getSingleLoop_error_eq (predicate : Option (α → Bool)) :
    ∀ (l ms : List α) (e : JinquError),
      getSingleLoop predicate ms l = .error e → e = .multipleMatches := by
  intro l
  induction l with
  | nil =>
    intro ms e h
    simp only [getSingleLoop] at h
    exact Except.noConfusion h
  | cons item rest ih =>
    intro ms e h
    simp only [getSingleLoop] at h
    split at h
    · exact ih ms e h
    · split at h
      · cases h; rfl
      · exact ih (ms ++ [item]) e h

/-- The scan of `getSingle` only reports `found = false` together with a
`null` item slot. -/
theorem getSingleLoop_false_snd (predicate : Option (α → Bool)) :
    ∀ (l ms : List α) (x : Option α),
      getSingleLoop predicate ms l = .ok (false, x) → x = none := by
  intro l
  induction l with
  | nil =>
    intro ms x h
    simp only [getSingleLoop] at h
    split at h
    · cases h
    · cases h; rfl
  | cons item rest ih =>
    intro ms x h
    simp only [getSingleLoop] at h
    split at h
    · exact ih ms x h
    · split at h
      · exact Except.noConfusion h
      · exact ih (ms ++ [item]) x h

/-- `single` throws `MultipleMatches` exactly when `singleOrDefault`
does: the error escapes the scan in both and is converted in neither. -/
theorem single_multipleMatches_iff (items : List α) (predicate : Option (α → Bool)) :
    single items predicate = .error .multipleMatches ↔
      singleOrDefault items predicate = .error .multipleMatches := by
  unfold single singleOrDefault
  by_cases h0 : items.length = 0
  · rw [if_pos h0]
    have hnil : items = [] := List.length_eq_zero.mp h0
    subst hnil
    simp [getSingle, getSingleLoop]
  · rw [if_neg h0]
    cases hg : getSingle items predicate with
    | error e =>
      have he := getSingleLoop_error_eq predicate items [] e hg
      subst he
      simp
    | ok r =>
      rcases r with ⟨b, x⟩
      cases b <;> simp

/-- The `EmptySequence` and `NoMatch` failures of `single` are converted
by `singleOrDefault` into the `null` sentinel. -/
theorem singleOrDefault_converts (items : List α) (predicate : Option (α → Bool)) :
    single items predicate = .error .emptySequence ∨
      single items predicate = .error .noMatch →
    singleOrDefault items predicate = .ok none := by
  unfold single singleOrDefault
  by_cases h0 : items.length = 0
  · rw [if_pos h0]
    have hnil : items = [] := List.length_eq_zero.mp h0
    subst hnil
    intro _
    simp [getSingle, getSingleLoop]
  · rw [if_neg h0]
    cases hg : getSingle items predicate with
    | error e =>
      have he := getSingleLoop_error_eq predicate items [] e hg
      subst he
      rintro (h | h) <;> simp at h
    | ok r =>
      rcases r with ⟨b, x⟩
      cases b with
      | false =>
        intro _
        have hx := getSingleLoop_false_snd predicate items [] x hg
        subst hx
        simp
      | true =>
        rintro (h | h) <;> simp at h

/-- The `EmptySequence` and `NoMatch` failures of `first` are converted
by `firstOrDefault` into the `null` sentinel. -/
theorem first_eq (items : List α) (predicate : Option (α → Bool)) :
    first items predicate =
      if items.length = 0 then .error .emptySequence
      else if !(getFirst items predicate).1 then .error .noMatch
      else .ok (getFirst items predicate).2 := rfl

theorem firstOrDefault_converts (items : List α) (predicate : Option (α → Bool)) :
    first items predicate = .error .emptySequence ∨
      first items predicate = .error .noMatch →
    firstOrDefault items predicate = none := by
  rw [first_eq]
  unfold firstOrDefault
  by_cases h0 : items.length = 0
  · have hnil : items = [] := List.length_eq_zero.mp h0
    subst hnil
    intro _
    rfl
  · rw [if_neg h0]
    cases hb : (getFirst items predicate).1 with
    | false =>
      intro _
      exact getFirst_false_snd items predicate hb
    | true =>
      rintro (h | h) <;> simp at h

/-- CLAIM C7. `first` on an empty sequence fails with `EmptySequence`
while `firstOrDefault` returns the `null` sentinel; `single` fails with
`MultipleMatches` when the predicate matches more than one element and
returns the unique match otherwise; the `OrDefault` variants convert
`EmptySequence` and `NoMatch` into the sentinel but never suppress
`MultipleMatches`, so `singleOrDefault` with two matches still fails. -/
theorem c7_first_single_error_taxonomy :
    first ([] : List Int) none = .error .emptySequence ∧
    firstOrDefault ([] : List Int) none = none ∧
    single ([1, 2] : List Int) (some (fun x => decide (x > 0))) =
      .error .multipleMatches ∧
    single ([1, 2] : List Int) (some (fun x => decide (x > 1))) = .ok (some 2) ∧
    singleOrDefault ([1, 2] : List Int) (some (fun x => decide (x > 0))) =
      .error .multipleMatches ∧
    (∀ (α : Type) (items : List α) (predicate : Option (α → Bool)),
      (single items predicate = .error .multipleMatches ↔
        singleOrDefault items predicate = .error .multipleMatches) ∧
      (single items predicate = .error .emptySequence ∨
        single items predicate = .error .noMatch →
        singleOrDefault items predicate = .ok none) ∧
      (first items predicate = .error .emptySequence ∨
        first items predicate = .error .noMatch →
        firstOrDefault items predicate = none)) := by
  refine ⟨rfl, rfl, rfl, rfl, rfl, ?_⟩
  intro α items predicate
  exact ⟨single_multipleMatches_iff items predicate,
    singleOrDefault_converts items predicate,
    firstOrDefault_converts items predicate⟩

/-- CLAIM C7 (witness). The conversion behavior applied at concrete
inputs: `singleOrDefault([5], x => x > 9)` converts the `NoMatch` of
`single` into the sentinel, and `firstOrDefault([])` converts the
`EmptySequence` of `first`. -/
theorem c7_first_single_error_taxonomy_witness :
    singleOrDefault ([5] : List Int) (some (fun x => decide (x > 9))) = .ok none ∧
    firstOrDefault ([] : List Int) none = none := by
  have h := c7_first_single_error_taxonomy
  constructor
  · exact (h.2.2.2.2.2 Int [5] (some (fun x => decide (x > 9)))).2.1 (Or.inr rfl)
  · exact (h.2.2.2.2.2 Int [] none).2.2 (Or.inl rfl)

/-- CLAIM C8. With a null or empty parts list `execute` returns the
source unchanged — a null source included, since the identity return
happens before the null check; with a non-empty parts list a null source
fails with `InvalidSource` before any operator runs (for every non-empty
parts list, whatever its operators are). -/
theorem c8_execute_identity_and_null_check (α : Type) [BEq α]
    (items : Option (List α)) (ps : List (QueryPart α)) :
    execute items none = .ok items ∧
    execute items (some []) = .ok items ∧
    (ps ≠ [] → execute (none : Option (List α)) (some ps) = .error .invalidSource) := by
  refine ⟨rfl, rfl, ?_⟩
  intro hne
  obtain ⟨p, rest, rfl⟩ := List.exists_cons_of_ne_nil hne
  rfl

/-- CLAIM C8 (witness). The identity and the null-source failure at
concrete inputs: a null parts list returns the source, and a null source
with one pending `where` part fails with `InvalidSource`. -/
theorem c8_execute_identity_and_null_check_witness :
    execute (some [(1 : Int)]) none = .ok (some [1]) ∧
    execute (none : Option (List Int)) (some [QueryPart.whereP (fun _ => true)]) =
      .error .invalidSource := by
  have h := c8_execute_identity_and_null_check Int (some [(1 : Int)])
    [QueryPart.whereP (fun _ => true)]
  exact ⟨h.1, h.2.2 (by simp)⟩

/-- Closed form of the instrumented `take` loop: starting at index `i`
it yields the next `(count - i).toNat` items and performs one more pull
than it yields (the item that fails the `++i <= count` test is pulled
before the loop breaks). -/
theorem takeStreamAux_spec (f : Nat → α) (count : Int) :
    ∀ (n : Nat) (i : Nat), (count - i).toNat = n →
      takeStreamAux f count i =
        ((List.range n).map (fun k => f (i + k)), n + 1) := by
  intro n
  induction n with
  | zero =>
    intro i hn
    rw [takeStreamAux]
    rw [if_neg (by omega)]
    simp
  | succ m ih =>
    intro i hn
    rw [takeStreamAux]
    rw [if_pos (by omega)]
    have hr := ih (i + 1) (by omega)
    simp only [hr]
    refine Prod.ext ?_ rfl
    rw [List.range_succ_eq_map, List.map_cons, List.map_map]
    simp only [Nat.add_zero]
    congr 1
    refine List.map_congr_left ?_
    intro k _
    simp only [Function.comp_apply]
    congr 1
    omega

/-- CLAIM C9 (counterexample). The claim states that fully consuming
`take(S, n)` pulls at most the first `n` items from the upstream
producer. Consuming `take(S, 1)` over the unbounded producer
`k => k` pulls 2 items: the loop pulls the second item and only then
evaluates `++i <= count`, breaking after the pull. -/
theorem c9_take_pulls_past_count :
    (takeStream (fun k => (k : Int)) 1).2 = 2 ∧
    ¬(takeStream (fun k => (k : Int)) 1).2 ≤ 1 := by
  have h := takeStreamAux_spec (fun k => (k : Int)) 1 1 0 (by decide)
  unfold takeStream
  rw [h]
  exact ⟨rfl, by omega⟩

/-- CLAIM C9 (amended). Fully consuming `take(S, n)` yields the first
`max n 0` items of the upstream producer and pulls exactly `max n 0 + 1`
items — at most one item beyond the count, because the item failing the
`++i <= count` test is pulled before the loop breaks — and in particular
it terminates even when `S` is an unbounded producer (`takeStream` is a
total function of an arbitrary infinite stream `f`). -/
theorem c9_take_stream_spec (α : Type) (f : Nat → α) (count : Int) :
    (takeStream f count).1 = (List.range count.toNat).map f ∧
    (takeStream f count).2 = count.toNat + 1 ∧
    (takeStream f count).2 ≤ count.toNat + 1 := by
  have h := takeStreamAux_spec f count count.toNat 0 (by omega)
  unfold takeStream
  rw [h]
  refine ⟨?_, rfl, le_refl _⟩
  simp

/-- Writing to one array object leaves every other object unchanged. -/
theorem readArr_writeArr_of_ne (h : Heap α) (r q : Nat) (l : List α) (hq : q ≠ r) :
    readArr (writeArr h r l) q = readArr h q := by
  unfold readArr writeArr
  rw [List.getElem?_set_ne hq.symm]

/-- A flush (`items.slice().sort(...)`) allocates a fresh copy and sorts
the copy in place: every array object present before the flush is
unchanged, and the store only grows. -/
theorem orderByHeap_preserves (h : Heap α) (itemsRef : Nat)
    (ks : List (QueryPart α)) (r : Nat) (hr : r < h.arrays.length) :
    readArr (orderByHeap h itemsRef ks).1 r = readArr h r ∧
    h.arrays.length ≤ (orderByHeap h itemsRef ks).1.arrays.length := by
  unfold orderByHeap allocArr
  constructor
  · rw [readArr_writeArr_of_ne _ _ _ _ (by omega)]
    unfold readArr
    rw [List.getElem?_append, if_pos hr]
  · unfold writeArr
    simp

/-- A flush step leaves pre-existing array objects unchanged and never
shrinks the store. -/
theorem flushPending_preserves [BEq α] (h : Heap α) (itemsRef : Nat)
    (value : RunVal α) (orderParts : List (QueryPart α)) (r : Nat)
    (hr : r < h.arrays.length) :
    readArr (flushPending h itemsRef value orderParts).1 r = readArr h r ∧
    h.arrays.length ≤ (flushPending h itemsRef value orderParts).1.arrays.length := by
  unfold flushPending
  by_cases ho : orderParts.isEmpty
  · rw [if_pos ho]
    exact ⟨rfl, le_refl _⟩
  · rw [if_neg ho]
    exact orderByHeap_preserves h itemsRef orderParts r hr

/-- The part loop of `execute` leaves every array object that existed
when it started unchanged: flushes write only to their fresh copies and
table operators never write to the store. -/
theorem executeLoopHeap_preserves [BEq α] :
    ∀ (ps : List (QueryPart α)) (h : Heap α) (itemsRef : Nat) (value : RunVal α)
      (orderParts : List (QueryPart α)) (r : Nat), r < h.arrays.length →
      readArr (executeLoopHeap h itemsRef value orderParts ps).1 r = readArr h r := by
  intro ps
  induction ps with
  | nil => intro h itemsRef value orderParts r hr; rfl
  | cons p rest ih =>
    intro h itemsRef value orderParts r hr
    unfold executeLoopHeap
    by_cases ht : numTruthy (jsBitNot (jsIndexOf thenFuncs p.kind))
    · rw [if_pos ht]
      exact ih h itemsRef value (orderParts ++ [p]) r hr
    · rw [if_neg ht]
      have hp := flushPending_preserves h itemsRef value orderParts r hr
      rcases hf : flushPending h itemsRef value orderParts with ⟨h2, value2⟩
      rw [hf] at hp
      show readArr
          (match handlePartHeap h2 value2 p with
            | Except.error e => (h2, Except.error e)
            | Except.ok v => executeLoopHeap h2 itemsRef v [] rest).1 r = readArr h r
      cases hh : handlePartHeap h2 value2 p with
      | error e => exact hp.1
      | ok v =>
        rw [ih h2 itemsRef v [] r (lt_of_lt_of_le hr hp.2)]
        exact hp.1

/-- CLAIM C10. Executing any pipeline leaves the source array unchanged:
with the source as the sole array object in the store, the store still
holds the original items behind the source reference after `execute`
finishes — whether it returns a value or an error — because the ordering
flush sorts a freshly allocated copy (`slice` before `sort`) and no other
operator writes into the sequence it receives. -/
theorem c10_execute_preserves_source (α : Type) [BEq α] (src : List α)
    (parts : Option (List (QueryPart α))) :
    readArr (executeHeap ⟨[src]⟩ 0 parts).1 0 = src := by
  cases parts with
  | none => rfl
  | some ps =>
    simp only [executeHeap]
    by_cases hps : ps.isEmpty
    · rw [if_pos hps]
      rfl
    · rw [if_neg hps]
      rw [executeLoopHeap_preserves ps ⟨[src]⟩ 0 (.ref 0) [] 0 (by simp)]
      rfl
